import Mathlib

/-!
Verification development for the kserver repository: a shallow embedding of
the episode-mark codec (`model/mod.rs`), the session token manager
(`main.rs`), and the database helper operations (`helper/db_helper.rs`),
with theorems settling the specification claims about them.

Floating-point values are modelled as rationals: every concrete value used
in a claim (multiples of 1/4 and 1/2, and the thresholds 0.25 and 0.75) is
exactly representable in f32, so f32 arithmetic on them coincides with
exact rational arithmetic.
-/

namespace KServer

/-- Truncation toward zero on rationals: the numeric value of Rust's
float-to-i32 `as` cast before its saturation at the i32 bounds is applied.
The complete cast, saturation included, is `i32Cast` below. -/
def ratTrunc (q : ℚ) : ℤ :=
  if 0 ≤ q then ⌊q⌋ else ⌈q⌉

/-- The complete Rust float-to-i32 `as` cast on a finite value: truncation
toward zero, saturating at the i32 bounds (`i32::MIN` for anything below
them, `i32::MAX` for anything above). -/
def i32Cast (q : ℚ) : ℤ :=
  max (-2147483648) (min 2147483647 (ratTrunc q))

/-- The `Float` enum of `model/mod.rs`: a canonical episode mark, either a
whole-episode mark `int n` or a half-episode mark `half n` denoting
`n + 0.5`. -/
inductive Float where
  | int : ℤ → Float
  | half : ℤ → Float
deriving DecidableEq

/-- Model of `Float::new` from `model/mod.rs`: `diff = i - i.floor()`; if
`diff < 0.25` then `Int(i as i32)`, else if `diff > 0.75` then
`Int(i as i32 + 1)`, else `Half(i as i32)`.  Note the Rust code uses the
truncating cast `i as i32`, not `i.floor()`, in the constructor argument.
The cast is left unbounded here; `Float.newSat` below is the same function
with the saturating cast, and the two agree whenever the truncated value
lies within the i32 bounds (`Float.newSat_eq_new`). -/
def Float.new (i : ℚ) : Float :=
  let diff := i - (⌊i⌋ : ℚ)
  if diff < 1/4 then Float.int (ratTrunc i)
  else if diff > 3/4 then Float.int (ratTrunc i + 1)
  else Float.half (ratTrunc i)

/-- Model of `Float::new` with the complete saturating `as i32` cast.  The
`+ 1` of the middle branch is the i32 increment, modelled as unbounded: it
cannot overflow on any f32-representable input, because every f32 of
magnitude at least 2^24 is an integer, takes `diff = 0 < 0.25`, and so
never reaches that branch. -/
def Float.newSat (i : ℚ) : Float :=
  let diff := i - (⌊i⌋ : ℚ)
  if diff < 1/4 then Float.int (i32Cast i)
  else if diff > 3/4 then Float.int (i32Cast i + 1)
  else Float.half (i32Cast i)

/-- The canonicalization contract exactly as the specification words it
(floor-based): if `frac < 0.25` then `Int(floor value)`, if `frac > 0.75`
then `Int(floor value + 1)`, otherwise `Half(floor value)`.  Declared only
to be compared against `Float.new`, which is translated from the source. -/
def specCanonicalize (value : ℚ) : Float :=
  let frac := value - (⌊value⌋ : ℚ)
  if frac < 1/4 then Float.int ⌊value⌋
  else if frac > 3/4 then Float.int (⌊value⌋ + 1)
  else Float.half ⌊value⌋

/-- The `Serialize` impl for `Float` in `model/mod.rs`: `Int(i)` serializes
as the integer `i`, `Half(i)` as the floating value `i + 0.5`. -/
def Float.serialize : Float → ℚ
  | Float.int i => (i : ℚ)
  | Float.half i => (i : ℚ) + 1/2

/-- The `PartialEq` impl for `Float` in `model/mod.rs`: equal iff same
variant with the same integer component. -/
def Float.beq : Float → Float → Bool
  | Float.int l0, Float.int r0 => l0 == r0
  | Float.half l0, Float.half r0 => l0 == r0
  | _, _ => false

/-- Two's-complement wrap-around of i32 arithmetic: the result of a Rust
release-mode `i32` computation whose mathematical value is `z`. -/
def wrap32 (z : ℤ) : ℤ :=
  (z + 2147483648) % 4294967296 - 2147483648

/-- The value fed to the hasher by the `Hash` impl for `Float` in
`model/mod.rs`: `i * 10` for `Int(i)` and `i * 10 + 5` for `Half(i)`,
computed in i32 arithmetic. -/
def Float.hashKey : Float → ℤ
  | Float.int i => wrap32 (i * 10)
  | Float.half i => wrap32 (i * 10 + 5)

/-- The `Display` impl for `Float` in `model/mod.rs`: `Int(i)` prints as
`i`, `Half(i)` prints as `i` followed by `.5`. -/
def Float.display : Float → String
  | Float.int i => toString i
  | Float.half i => toString i ++ ".5"

lemma ratTrunc_intCast (n : ℤ) : ratTrunc ((n : ℤ) : ℚ) = n := by
  unfold ratTrunc
  split <;> simp

lemma ratTrunc_of_nonneg {q : ℚ} (h : 0 ≤ q) : ratTrunc q = ⌊q⌋ := by
  unfold ratTrunc
  exact if_pos h

lemma Float.new_intCast (n : ℤ) : Float.new ((n : ℤ) : ℚ) = Float.int n := by
  unfold Float.new
  rw [Int.floor_intCast, ratTrunc_intCast]
  norm_num

lemma floor_neg_five_halves : ⌊(-5/2 : ℚ)⌋ = -3 := by
  rw [Int.floor_eq_iff]
  norm_num

lemma ceil_neg_five_halves : ⌈(-5/2 : ℚ)⌉ = -2 := by
  rw [Int.ceil_eq_iff]
  norm_num

lemma new_neg_five_halves : Float.new (-5/2 : ℚ) = Float.half (-2) := by
  unfold Float.new ratTrunc
  rw [floor_neg_five_halves, ceil_neg_five_halves]
  norm_num

lemma Float.newSat_eq_new {q : ℚ} (h0 : -2147483648 ≤ ratTrunc q)
    (h1 : ratTrunc q ≤ 2147483647) : Float.newSat q = Float.new q := by
  have hc : i32Cast q = ratTrunc q := by
    unfold i32Cast
    rw [min_eq_right h1, max_eq_right h0]
  simp only [Float.newSat, Float.new, hc]

lemma Float.newSat_intCast (n : ℤ) :
    Float.newSat ((n : ℤ) : ℚ) = Float.int (i32Cast ((n : ℤ) : ℚ)) := by
  simp only [Float.newSat]
  rw [Int.floor_intCast]
  norm_num

lemma ratTrunc_neg_five_halves : ratTrunc (-5/2 : ℚ) = -2 := by
  unfold ratTrunc
  rw [if_neg (by norm_num), ceil_neg_five_halves]

lemma newSat_neg_five_halves : Float.newSat (-5/2 : ℚ) = Float.half (-2) := by
  rw [Float.newSat_eq_new (by rw [ratTrunc_neg_five_halves]; norm_num)
    (by rw [ratTrunc_neg_five_halves]; norm_num)]
  exact new_neg_five_halves

/-! Section: session token manager (`main.rs`)

The live token set is the `Vec<AuthToken>` behind the mutex in `AppState`;
every operation runs while holding the lock, so each is modelled as a pure
function of the token list.  A panic is modelled as `none`. -/

abbrev AuthToken := String

/-- The `AuthStatus` enum of `main.rs`. -/
inductive AuthStatus where
  | Authenticated
  | AuthNotValid
  | AuthExpired
  | NotLoggedIn
deriving DecidableEq

/-- The linear scan shared by `AppState::auth` and `AppState::clear_token`:
`found` is true iff some element of the list equals `in_token`. -/
def tokenFound (tokens : List AuthToken) (inToken : String) : Bool :=
  tokens.any (fun t => t == inToken)

/-- Model of `AppState::auth` from `main.rs`: scan the token list; if the presented
token is not found return `NotLoggedIn`, otherwise `Authenticated`. -/
def auth (tokens : List AuthToken) (inToken : String) : AuthStatus :=
  if tokenFound tokens inToken then AuthStatus.Authenticated
  else AuthStatus.NotLoggedIn

/-- Model of `AppState::auth` as a state transformer: it only reads the token list
under the lock, so the list component of the result is the input list. -/
def authStep (tokens : List AuthToken) (inToken : String) :
    List AuthToken × AuthStatus :=
  (tokens, auth tokens inToken)

/-- Model of `AppState::gen_token` from `main.rs`: push a freshly generated token
onto the token list and return it.  The random hex string is supplied as
the argument `fresh` (an oracle for `rand`). -/
def gen_token (tokens : List AuthToken) (fresh : AuthToken) :
    List AuthToken × AuthToken :=
  (tokens ++ [fresh], fresh)

/-- Model of `Vec::swap_remove(i)` from the Rust standard library: replace the
element at index `i` with the last element and shrink the vector by one;
out-of-bounds `i` is a panic, modelled as `none`. -/
def swapRemove (l : List AuthToken) (i : ℕ) : Option (List AuthToken) :=
  if i < l.length then some ((l.set i (l.getLast?.getD "")).dropLast)
  else none

/-- Model of `AppState::clear_token` from `main.rs`: scan for the token; if absent,
return unchanged; if present, call `swap_remove(found as usize)` — and
since `found : bool` is `true` at that point, the cast yields the constant
index 1, not the index at which the token was found. -/
def clear_token (tokens : List AuthToken) (inToken : String) :
    Option (List AuthToken) :=
  if tokenFound tokens inToken then swapRemove tokens 1
  else some tokens

/-! Section: data model and database helper (`model/mod.rs`, `helper/db_helper.rs`)

The two tables the claims touch are `anime_list` (one row per watch list)
and `anime_state` (one row per tracked anime).  A database is modelled as
the two row lists; SQL statements become list transformations.  The stored
`watched_episodes` JSON array is modelled as the finite set of numeric
values it holds.  A panic (an `unwrap` failure or an out-of-bounds row
index) is modelled as `none`. -/

/-- A row of the `anime_list` table: the `WatchList` struct of
`model/mod.rs`. -/
structure WatchList where
  title : String
  archived : Bool
  animes : List ℤ
deriving DecidableEq

/-- A row of the `anime_state` table, restricted to the columns the claims
mention: the key `anime_id` and the `watched_episodes` JSON set. -/
structure AnimeState where
  anime_id : ℤ
  watched_episodes : Finset ℚ
deriving DecidableEq

/-- The database state seen by `DbHelper`. -/
structure Db where
  anime_list : List WatchList
  anime_state : List AnimeState
deriving DecidableEq

/-- The `DbError` enum of `helper/db_error.rs`. -/
inductive DbError where
  | AnimeNotFound : ℤ → DbError
  | EpisodeNotFound : ℤ → DbError
  | PostgresError : DbError
  | WatchListNotFound : String → DbError
deriving DecidableEq

/-- Model of `UPDATE anime_list SET animes = array_remove(animes, $1) WHERE
title = $2`: Postgres `array_remove` deletes every occurrence of the
element from the rows whose title matches. -/
def removeAnimeFromLists (lists : List WatchList) (animeId : ℤ)
    (title : String) : List WatchList :=
  lists.map (fun w =>
    if w.title == title then
      WatchList.mk w.title w.archived (w.animes.filter (fun a => a != animeId))
    else w)

/-- Model of `SELECT * FROM anime_list WHERE animes @> ARRAY[$1]`: the rows whose
`animes` array contains the id. -/
def listsContaining (lists : List WatchList) (animeId : ℤ) : List WatchList :=
  lists.filter (fun w => w.animes.contains animeId)

/-- Model of `DELETE FROM anime_state WHERE anime_id = $1`. -/
def deleteStateRows (states : List AnimeState) (animeId : ℤ) :
    List AnimeState :=
  states.filter (fun s => s.anime_id != animeId)

/-- Model of `DbHelper::delete_anime_state_from_watch_list` from
`helper/db_helper.rs`: remove the id from the named list, then query every
list still containing the id, and if there are none delete the anime-state
row. -/
def delete_anime_state_from_watch_list (db : Db) (animeId : ℤ)
    (title : String) : Db :=
  let lists' := removeAnimeFromLists db.anime_list animeId title
  let rows := listsContaining lists' animeId
  Db.mk lists'
    (if rows.length = 0 then deleteStateRows db.anime_state animeId
     else db.anime_state)

/-- Whether the `anime_state` table holds a row for the id. -/
def statePresent (db : Db) (animeId : ℤ) : Bool :=
  db.anime_state.any (fun s => s.anime_id == animeId)

/-- Whether any watch list's `animes` array contains the id. -/
def anyListContains (lists : List WatchList) (animeId : ℤ) : Bool :=
  lists.any (fun w => w.animes.contains animeId)

/-- The outcome of a fallible `DbHelper` operation: `ok` or `error` for
the two sides of the Rust `Result`, wrapped in `Option` by the caller with
`none` standing for a panic. -/
inductive FetchResult (α : Type) where
  | ok : α → FetchResult α
  | error : DbError → FetchResult α
deriving DecidableEq

/-- Model of `DbHelper::query_anime_by_id` from `helper/db_helper.rs`: run
`SELECT * FROM anime_state WHERE anime_id = $1` and convert `rows[0]`.
Indexing an empty row list is a panic, modelled as `none`; the function
never constructs a `DbError` NotFound value itself. -/
def query_anime_by_id (db : Db) (animeId : ℤ) :
    Option (FetchResult AnimeState) :=
  match db.anime_state.filter (fun s => s.anime_id == animeId) with
  | [] => none
  | r :: _ => some (FetchResult.ok r)

/-- Model of `DbHelper::get_watch_list` from `helper/db_helper.rs`: run
`SELECT * FROM anime_list WHERE title = $1` and convert `rows[0]`;
indexing an empty row list is a panic, modelled as `none`. -/
def get_watch_list (db : Db) (title : String) :
    Option (FetchResult WatchList) :=
  match db.anime_list.filter (fun w => w.title == title) with
  | [] => none
  | r :: _ => some (FetchResult.ok r)

/-- The set transformation inside `DbHelper::update_episode_watched_state`:
the stored JSON array is deserialized into a `HashSet<i32>` — which
succeeds only when every stored value is an integer, and otherwise is an
`unwrap` panic (`none`) — then the raw `i32` episode number `ep` is
inserted or removed, and the set is serialized back.  The `Float` codec is
never invoked. -/
def codeSetUpdate (s : Finset ℚ) (ep : ℤ) (watched : Bool) :
    Option (Finset ℚ) :=
  if ∀ q ∈ s, q.den = 1 then
    let si : Finset ℤ := s.image Rat.num
    let si' := if watched then insert ep si else si.erase ep
    some (si'.image (fun n => ((n : ℤ) : ℚ)))
  else none

/-- The update step exactly as the specification words it (declared only to
be compared with `codeSetUpdate`, which is translated from the source):
read the stored values as canonical marks through the codec, insert or
remove the canonicalized episode mark, and write the marks back in their
serialized form. -/
def specSetUpdate (s : Finset ℚ) (ep : ℚ) (watched : Bool) : Finset ℚ :=
  let marks := s.image Float.new
  let marks' := if watched then insert (Float.new ep) marks
                else marks.erase (Float.new ep)
  marks'.image Float.serialize

/-- Model of `DbHelper::update_episode_watched_state` from `helper/db_helper.rs`:
`SELECT watched_episodes ... WHERE anime_id = $1`, index `rows[0]` (a
panic when the id is absent), deserialize into a `HashSet<i32>` (a panic
when a stored value is not an integer), insert or remove the raw `ep`,
then `UPDATE ... SET watched_episodes = $1 WHERE anime_id = $2`. -/
def update_episode_watched_state (db : Db) (animeId : ℤ) (ep : ℤ)
    (watched : Bool) : Option Db :=
  match db.anime_state.filter (fun s => s.anime_id == animeId) with
  | [] => none
  | r :: _ =>
    match codeSetUpdate r.watched_episodes ep watched with
    | none => none
    | some s' =>
      some (Db.mk db.anime_list
        (db.anime_state.map (fun t =>
          if t.anime_id == animeId then AnimeState.mk t.anime_id s' else t)))

/-! Section: claim theorems -/

/-- C1: the claim says `clear_token` removes the presented token, that
logout always succeeds and is idempotent, and that the revoked token then
fails to authenticate.  The code instead calls
`swap_remove(found as usize)` with `found : bool`, i.e. the constant index
1: with live set `["a", "b"]`, revoking `"a"` removes `"b"` and `"a"`
still authenticates; with live set `["t"]`, revoking `"t"` panics
(swap_remove index 1 is out of bounds), so logout does not always
succeed. -/
theorem clear_token_removes_wrong_token :
    clear_token ["a", "b"] "a" = some ["a"]
    ∧ auth ["a"] "a" = AuthStatus.Authenticated
    ∧ clear_token ["t"] "t" = none := by
  decide

/-- C7: `auth` returns `Authenticated` exactly when the presented token is
a member of the live list and `NotLoggedIn` otherwise; `AuthNotValid` and
`AuthExpired` are never returned; and a token returned by `gen_token`
authenticates against the updated list. -/
theorem auth_iff_member (tokens : List AuthToken) (t : AuthToken) :
    (auth tokens t = AuthStatus.Authenticated ↔ t ∈ tokens)
    ∧ (auth tokens t = AuthStatus.NotLoggedIn ↔ t ∉ tokens)
    ∧ (auth tokens t = AuthStatus.Authenticated
        ∨ auth tokens t = AuthStatus.NotLoggedIn)
    ∧ auth (gen_token tokens t).1 (gen_token tokens t).2
        = AuthStatus.Authenticated := by
  have hmem : ∀ (l : List AuthToken) (x : AuthToken),
      tokenFound l x = true ↔ x ∈ l := by
    intro l x
    simp [tokenFound, List.any_eq_true]
  by_cases h : tokenFound tokens t = true
  · refine ⟨?_, ?_, ?_, ?_⟩
    · simp [auth, h, (hmem tokens t).mp h]
    · simp [auth, h, (hmem tokens t).mp h]
    · simp [auth, h]
    · simp [auth, gen_token, hmem]
  · have hnm : t ∉ tokens := fun hc => h ((hmem tokens t).mpr hc)
    refine ⟨?_, ?_, ?_, ?_⟩
    · simp [auth, h, hnm]
    · simp [auth, h, hnm]
    · simp [auth, h]
    · simp [auth, gen_token, hmem]

/-- C7 witness: a freshly issued token authenticates, a revoked-set member
check at a concrete input. -/
theorem auth_iff_member_witness :
    ("x" ∈ ["w", "x"])
    ∧ auth ["w", "x"] "x" = AuthStatus.Authenticated := by
  refine ⟨by decide, ?_⟩
  exact (auth_iff_member ["w", "x"] "x").1.mpr (by decide)

/-- C10: `auth` never modifies the token list, and `gen_token` only
appends the returned token, keeping every previously stored token at its
original position. -/
theorem auth_gen_token_frame (tokens : List AuthToken) (t : AuthToken) :
    (authStep tokens t).1 = tokens
    ∧ (gen_token tokens t).1 = tokens ++ [(gen_token tokens t).2]
    ∧ (gen_token tokens t).1.take tokens.length = tokens
    ∧ (gen_token tokens t).1.length = tokens.length + 1 := by
  refine ⟨rfl, rfl, ?_, by simp [gen_token]⟩
  exact List.take_left tokens [t]

/-- C8: marks are equal exactly when they are the same constructor applied
to the same integer, `Int(n)` never equals `Half(n)`, the i32 hash keys of
an `Int` and a `Half` never coincide (even with wrap-around), and the
display strings of `Int(3)` and `Half(3)` are `"3"` and `"3.5"`. -/
theorem float_eq_hash_display :
    (∀ a b : Float, Float.beq a b = true ↔ a = b)
    ∧ (∀ n : ℤ, Float.beq (Float.int n) (Float.half n) = false)
    ∧ (∀ n m : ℤ, Float.hashKey (Float.int n) ≠ Float.hashKey (Float.half m))
    ∧ Float.display (Float.int 3) = "3"
    ∧ Float.display (Float.half 3) = "3.5" := by
  refine ⟨?_, ?_, ?_, by decide, by decide⟩
  · intro a b
    cases a <;> cases b <;> simp [Float.beq]
  · intro n
    rfl
  · intro n m
    simp only [Float.hashKey, wrap32]
    omega

/-- C8 witness: the equality and hash-key properties applied at concrete
marks. -/
theorem float_eq_hash_display_witness :
    Float.beq (Float.int 3) (Float.half 3) = false
    ∧ Float.hashKey (Float.int 0) ≠ Float.hashKey (Float.half 0) :=
  ⟨float_eq_hash_display.2.1 3, float_eq_hash_display.2.2.1 0 0⟩

lemma Float.new_cases (q : ℚ) :
    Float.new q = Float.int (ratTrunc q)
    ∨ (3/4 < q - (⌊q⌋ : ℚ) ∧ Float.new q = Float.int (ratTrunc q + 1))
    ∨ (1/4 ≤ q - (⌊q⌋ : ℚ) ∧ Float.new q = Float.half (ratTrunc q)) := by
  simp only [Float.new]
  split_ifs with h1 h2
  · exact Or.inl rfl
  · exact Or.inr (Or.inl ⟨h2, rfl⟩)
  · exact Or.inr (Or.inr ⟨le_of_not_lt h1, rfl⟩)

lemma floor_half : ⌊(1/2 : ℚ)⌋ = 0 := by
  rw [Int.floor_eq_iff]
  norm_num

lemma Float.new_int_add_half {n : ℤ} (hn : 0 ≤ n) :
    Float.new ((n : ℚ) + 1/2) = Float.half n := by
  have hq : (0 : ℚ) ≤ (n : ℚ) + 1/2 := by
    have : (0 : ℚ) ≤ (n : ℚ) := by exact_mod_cast hn
    linarith
  have hf : ⌊(n : ℚ) + 1/2⌋ = n := by
    rw [Int.floor_int_add, floor_half, add_zero]
  unfold Float.new
  rw [ratTrunc_of_nonneg hq, hf]
  have hdiff : (n : ℚ) + 1/2 - (n : ℚ) = 1/2 := by ring
  rw [hdiff]
  norm_num

lemma Float.new_of_den_one {q : ℚ} (h : q.den = 1) :
    Float.new q = Float.int q.num := by
  conv_lhs => rw [← Rat.coe_int_num_of_den_eq_one h]
  exact Float.new_intCast q.num

/-- C2 counterexample: the floor contract fails twice inside the claimed
domain of all finite floats.  At −2.5 (exactly representable in f32, exact
f32 arithmetic throughout) the code computes `Half(-2.5 as i32) =
Half(-2)` while the contract gives `Half(floor(-2.5)) = Half(-3)`; and at
the finite f32 value 2147483648.0 the saturating cast yields
`Int(2147483647)` while the contract gives `Int(floor) =
Int(2147483648)`. -/
theorem canonicalize_negative_counterexample :
    Float.newSat (-5/2 : ℚ) = Float.half (-2)
    ∧ specCanonicalize (-5/2 : ℚ) = Float.half (-3)
    ∧ Float.newSat (-5/2 : ℚ) ≠ specCanonicalize (-5/2 : ℚ)
    ∧ Float.newSat (2147483648 : ℚ) = Float.int 2147483647
    ∧ specCanonicalize (2147483648 : ℚ) = Float.int 2147483648 := by
  have h2 : specCanonicalize (-5/2 : ℚ) = Float.half (-3) := by
    unfold specCanonicalize
    rw [floor_neg_five_halves]
    norm_num
  have hbig : (2147483648 : ℚ) = ((2147483648 : ℤ) : ℚ) := by norm_num
  have h4 : Float.newSat (2147483648 : ℚ) = Float.int 2147483647 := by
    rw [hbig, Float.newSat_intCast]
    have : i32Cast ((2147483648 : ℤ) : ℚ) = 2147483647 := by
      unfold i32Cast
      rw [ratTrunc_intCast]
      decide
    rw [this]
  have h5 : specCanonicalize (2147483648 : ℚ) = Float.int 2147483648 := by
    simp only [specCanonicalize, hbig]
    rw [Int.floor_intCast]
    norm_num
  refine ⟨newSat_neg_five_halves, h2, ?_, h4, h5⟩
  rw [newSat_neg_five_halves, h2]
  decide

/-- C2 (amended to the nonsaturating nonnegative range): for every finite
value with `0 ≤ value ≤ 2147483647` — where the `as i32` cast neither
truncates differently from floor nor saturates, and the `+ 1` of the upper
branch cannot overflow — `Float::new` returns `Int(floor value)` when the
fractional part is below 0.25, `Int(floor value + 1)` when it is above
0.75, and `Half(floor value)` otherwise; on this range the saturating
model also agrees with the unbounded one. -/
theorem canonicalize_nonneg (q : ℚ) (h : 0 ≤ q) (hub : q ≤ 2147483647) :
    Float.newSat q = specCanonicalize q ∧ Float.newSat q = Float.new q := by
  have htr : ratTrunc q = ⌊q⌋ := ratTrunc_of_nonneg h
  have hlb : 0 ≤ ⌊q⌋ := Int.floor_nonneg.mpr h
  have hfl : ⌊q⌋ ≤ 2147483647 := by
    have hub' : q ≤ ((2147483647 : ℤ) : ℚ) := by exact_mod_cast hub
    calc ⌊q⌋ ≤ ⌊((2147483647 : ℤ) : ℚ)⌋ := Int.floor_le_floor hub'
    _ = 2147483647 := Int.floor_intCast _
  have hbridge : Float.newSat q = Float.new q :=
    Float.newSat_eq_new (by rw [htr]; omega) (by rw [htr]; omega)
  refine ⟨?_, hbridge⟩
  rw [hbridge]
  simp only [Float.new, specCanonicalize, htr]

/-- C2 witness: the amended contract applied at the concrete input 3.1. -/
theorem canonicalize_nonneg_witness :
    ((0 : ℚ) ≤ mkRat 31 10 ∧ mkRat 31 10 ≤ (2147483647 : ℚ))
    ∧ Float.newSat (mkRat 31 10) = specCanonicalize (mkRat 31 10) :=
  ⟨⟨by decide, by decide⟩,
   (canonicalize_nonneg (mkRat 31 10) (by decide) (by decide)).1⟩

lemma floor_neg_three_halves : ⌊(-3/2 : ℚ)⌋ = -2 := by
  rw [Int.floor_eq_iff]
  norm_num

lemma ceil_neg_three_halves : ⌈(-3/2 : ℚ)⌉ = -1 := by
  rw [Int.ceil_eq_iff]
  norm_num

lemma new_neg_three_halves : Float.new (-3/2 : ℚ) = Float.half (-1) := by
  unfold Float.new ratTrunc
  rw [floor_neg_three_halves, ceil_neg_three_halves]
  norm_num

lemma ratTrunc_neg_three_halves : ratTrunc (-3/2 : ℚ) = -1 := by
  unfold ratTrunc
  rw [if_neg (by norm_num), ceil_neg_three_halves]

lemma newSat_neg_three_halves : Float.newSat (-3/2 : ℚ) = Float.half (-1) := by
  rw [Float.newSat_eq_new (by rw [ratTrunc_neg_three_halves]; norm_num)
    (by rw [ratTrunc_neg_three_halves]; norm_num)]
  exact new_neg_three_halves

lemma Float.newSat_intCast_of_mem_range {n : ℤ} (h0 : -2147483648 ≤ n)
    (h1 : n ≤ 2147483647) : Float.newSat ((n : ℤ) : ℚ) = Float.int n := by
  rw [Float.newSat_eq_new (by rw [ratTrunc_intCast]; exact h0)
    (by rw [ratTrunc_intCast]; exact h1)]
  exact Float.new_intCast n

lemma Float.newSat_int_add_half {n : ℤ} (hn : 0 ≤ n)
    (h1 : n ≤ 2147483647) : Float.newSat ((n : ℚ) + 1/2) = Float.half n := by
  have hq : (0 : ℚ) ≤ (n : ℚ) + 1/2 := by
    have : (0 : ℚ) ≤ (n : ℚ) := by exact_mod_cast hn
    linarith
  have htr : ratTrunc ((n : ℚ) + 1/2) = n := by
    rw [ratTrunc_of_nonneg hq, Int.floor_int_add, floor_half, add_zero]
  rw [Float.newSat_eq_new (by rw [htr]; omega) (by rw [htr]; exact h1)]
  exact Float.new_int_add_half hn

/-- C6 counterexample: at f = −2.5 the code canonicalizes to `Half(-2)`,
which serializes to −1.5, which re-canonicalizes to `Half(-1)`: the
serialize-then-deserialize round trip is not the identity on this
canonical mark. -/
theorem roundtrip_counterexample :
    Float.newSat (-5/2 : ℚ) = Float.half (-2)
    ∧ Float.newSat (Float.serialize (Float.newSat (-5/2 : ℚ)))
        = Float.half (-1)
    ∧ Float.newSat (Float.serialize (Float.newSat (-5/2 : ℚ)))
        ≠ Float.newSat (-5/2 : ℚ) := by
  have hs : Float.serialize (Float.newSat (-5/2 : ℚ)) = (-3/2 : ℚ) := by
    rw [newSat_neg_five_halves]
    show ((-2 : ℤ) : ℚ) + 1/2 = (-3/2 : ℚ)
    norm_num
  refine ⟨newSat_neg_five_halves, ?_, ?_⟩
  · rw [hs, newSat_neg_three_halves]
  · rw [hs, newSat_neg_three_halves, newSat_neg_five_halves]
    decide

/-- C6 (amended to the nonsaturating nonnegative range): for every value
`f` with `0 ≤ f ≤ 2147483647`, re-canonicalizing the serialized form of
the canonical mark of `f` yields the canonical mark of `f` again.  The
marks produced on this range have components within the i32 bounds, so
their serialized forms are exact in f32 and re-enter the cast's
nonsaturating regime. -/
theorem roundtrip_nonneg (q : ℚ) (h : 0 ≤ q) (hub : q ≤ 2147483647) :
    Float.newSat (Float.serialize (Float.newSat q)) = Float.newSat q := by
  have htr : ratTrunc q = ⌊q⌋ := ratTrunc_of_nonneg h
  have hlb : 0 ≤ ⌊q⌋ := Int.floor_nonneg.mpr h
  have hub' : q ≤ ((2147483647 : ℤ) : ℚ) := by exact_mod_cast hub
  have hfl : ⌊q⌋ ≤ 2147483647 := by
    calc ⌊q⌋ ≤ ⌊((2147483647 : ℤ) : ℚ)⌋ := Int.floor_le_floor hub'
    _ = 2147483647 := Int.floor_intCast _
  have hbridge : Float.newSat q = Float.new q :=
    Float.newSat_eq_new (by rw [htr]; omega) (by rw [htr]; omega)
  rw [hbridge]
  rcases Float.new_cases q with hc | ⟨hfrac, hc⟩ | ⟨hfrac, hc⟩
  · rw [hc]
    exact Float.newSat_intCast_of_mem_range (by rw [htr]; omega)
      (by rw [htr]; omega)
  · have hstrict : ⌊q⌋ < 2147483647 := by
      have hql : (⌊q⌋ : ℚ) + 3/4 < q := by linarith
      have : (⌊q⌋ : ℚ) < ((2147483647 : ℤ) : ℚ) := by linarith
      exact_mod_cast this
    rw [hc]
    exact Float.newSat_intCast_of_mem_range (by rw [htr]; omega)
      (by rw [htr]; omega)
  · rw [hc]
    exact Float.newSat_int_add_half (by rw [htr]; omega) (by rw [htr]; omega)

/-- C6 witness: the round trip applied at the concrete input 3.5. -/
theorem roundtrip_nonneg_witness :
    ((0 : ℚ) ≤ mkRat 7 2 ∧ mkRat 7 2 ≤ (2147483647 : ℚ))
    ∧ Float.newSat (Float.serialize (Float.newSat (mkRat 7 2)))
        = Float.newSat (mkRat 7 2) :=
  ⟨⟨by decide, by decide⟩,
   roundtrip_nonneg (mkRat 7 2) (by decide) (by decide)⟩

lemma listsContaining_length_zero_iff (lists : List WatchList) (animeId : ℤ) :
    (listsContaining lists animeId).length = 0
    ↔ anyListContains lists animeId = false := by
  simp [listsContaining, anyListContains, List.length_eq_zero,
    List.filter_eq_nil_iff, List.any_eq_true]

lemma statePresent_deleteStateRows (states : List AnimeState) (animeId : ℤ) :
    (deleteStateRows states animeId).any
      (fun s => s.anime_id == animeId) = false := by
  simp only [deleteStateRows, Bool.eq_false_iff, ne_eq, List.any_eq_true,
    List.mem_filter, bne_iff_ne, beq_iff_eq, not_exists, not_and]
  intro s hs
  exact hs.2

/-- C3: after `delete_anime_state_from_watch_list`, if no watch list's
`animes` array still contains the id, the anime-state row for the id is
gone; if some list still contains it, the row is still present. -/
theorem removeAnimeFromList_consistency (db : Db) (animeId : ℤ)
    (title : String) (hpre : statePresent db animeId = true) :
    (anyListContains
        (delete_anime_state_from_watch_list db animeId title).anime_list
        animeId = false →
      statePresent (delete_anime_state_from_watch_list db animeId title)
        animeId = false)
    ∧ (anyListContains
        (delete_anime_state_from_watch_list db animeId title).anime_list
        animeId = true →
      statePresent (delete_anime_state_from_watch_list db animeId title)
        animeId = true) := by
  simp only [delete_anime_state_from_watch_list, statePresent]
  by_cases h0 :
      (listsContaining (removeAnimeFromLists db.anime_list animeId title)
        animeId).length = 0
  · constructor
    · intro _
      simp only [if_pos h0]
      exact statePresent_deleteStateRows db.anime_state animeId
    · intro hcon
      have := (listsContaining_length_zero_iff _ _).mp h0
      rw [hcon] at this
      cases this
  · constructor
    · intro hno
      exact absurd ((listsContaining_length_zero_iff _ _).mpr hno) h0
    · intro _
      simp only [if_neg h0]
      exact hpre

/-- C3 witness: the two scenarios from the specification, with a single
list containing only id 42 and with two lists both containing id 42. -/
theorem removeAnimeFromList_consistency_witness :
    statePresent (delete_anime_state_from_watch_list
      (Db.mk [WatchList.mk "plan-to-watch" false [42]]
        [AnimeState.mk 42 ∅]) 42 "plan-to-watch") 42 = false
    ∧ statePresent (delete_anime_state_from_watch_list
      (Db.mk [WatchList.mk "list-a" false [42], WatchList.mk "list-b" false [42]]
        [AnimeState.mk 42 ∅]) 42 "list-a") 42 = true :=
  ⟨(removeAnimeFromList_consistency
      (Db.mk [WatchList.mk "plan-to-watch" false [42]] [AnimeState.mk 42 ∅])
      42 "plan-to-watch" (by decide)).1 (by decide),
   (removeAnimeFromList_consistency
      (Db.mk [WatchList.mk "list-a" false [42], WatchList.mk "list-b" false [42]]
        [AnimeState.mk 42 ∅])
      42 "list-a" (by decide)).2 (by decide)⟩

/-- C9: the anime-state row survives `delete_anime_state_from_watch_list`
exactly when it was present before and, after the removal step, some watch
list still contains the id — the deletion is conditioned only on the
global membership query, never on the named title; in particular the call
with a non-existent title purges an already-orphaned row. -/
theorem delete_conditioned_on_global_membership :
    (∀ (db : Db) (animeId : ℤ) (title : String),
      statePresent (delete_anime_state_from_watch_list db animeId title)
          animeId
        = (statePresent db animeId
            && anyListContains
              (delete_anime_state_from_watch_list db animeId title).anime_list
              animeId))
    ∧ (delete_anime_state_from_watch_list
        (Db.mk [] [AnimeState.mk 42 ∅]) 42 "no-such-list").anime_state
      = [] := by
  refine ⟨?_, by decide⟩
  intro db animeId title
  simp only [delete_anime_state_from_watch_list, statePresent]
  by_cases h0 :
      (listsContaining (removeAnimeFromLists db.anime_list animeId title)
        animeId).length = 0
  · have hfalse := (listsContaining_length_zero_iff _ _).mp h0
    simp only [if_pos h0, hfalse, Bool.and_false]
    exact statePresent_deleteStateRows db.anime_state animeId
  · have htrue : anyListContains
        (removeAnimeFromLists db.anime_list animeId title) animeId = true := by
      rw [← Bool.ne_false_iff]
      intro hf
      exact h0 ((listsContaining_length_zero_iff _ _).mpr hf)
    simp only [if_neg h0, htrue, Bool.and_true]

/-- C5: the claim says the single-row fetches fail with the domain
NotFound error when the target is absent.  The code indexes `rows[0]`
without a zero-row check: on an absent id or title both operations panic
(modelled as `none`) and never produce `AnimeNotFound` or
`WatchListNotFound`; when the row is present it is returned. -/
theorem single_row_fetch_faults :
    query_anime_by_id (Db.mk [] []) 42 = none
    ∧ query_anime_by_id (Db.mk [] []) 42
        ≠ some (FetchResult.error (DbError.AnimeNotFound 42))
    ∧ get_watch_list (Db.mk [] []) "plan-to-watch" = none
    ∧ get_watch_list (Db.mk [] []) "plan-to-watch"
        ≠ some (FetchResult.error (DbError.WatchListNotFound "plan-to-watch"))
    ∧ query_anime_by_id (Db.mk [] [AnimeState.mk 42 ∅]) 42
        = some (FetchResult.ok (AnimeState.mk 42 ∅))
    ∧ get_watch_list (Db.mk [WatchList.mk "w" false []] []) "w"
        = some (FetchResult.ok (WatchList.mk "w" false [])) := by
  decide

lemma floor_seven_halves : ⌊(7/2 : ℚ)⌋ = 3 := by
  rw [Int.floor_eq_iff]
  norm_num

lemma new_seven_halves : Float.new (7/2 : ℚ) = Float.half 3 := by
  unfold Float.new ratTrunc
  rw [floor_seven_halves]
  norm_num

lemma float_int_injective : Function.Injective Float.int := by
  intro a b hab
  injection hab

/-- C4 counterexample: on a stored `watched_episodes` set containing the
half mark 3.5 — a value the codec itself serializes for `Half(3)` — the
code's `HashSet<i32>` deserialization panics (`none`) instead of
canonicalizing through the codec, while the claimed behaviour would
produce the updated set `{3.5, 4}`. -/
theorem update_episode_codec_counterexample :
    mkRat 7 2 = (7/2 : ℚ)
    ∧ update_episode_watched_state
        (Db.mk [] [AnimeState.mk 1 {mkRat 7 2}]) 1 4 true = none
    ∧ specSetUpdate {mkRat 7 2} 4 true = {mkRat 7 2, (4 : ℚ)} := by
  have h72 : mkRat 7 2 = (7/2 : ℚ) := by
    rw [Rat.mkRat_eq_div]
    norm_num
  refine ⟨h72, by decide, ?_⟩
  have hnew72 : Float.new (mkRat 7 2) = Float.half 3 := by
    rw [h72]
    exact new_seven_halves
  have hnew4 : Float.new (4 : ℚ) = Float.int 4 := by
    rw [show (4 : ℚ) = ((4 : ℤ) : ℚ) by norm_num]
    exact Float.new_intCast 4
  have hser3 : Float.serialize (Float.half 3) = mkRat 7 2 := by
    show ((3 : ℤ) : ℚ) + 1/2 = mkRat 7 2
    rw [h72]
    norm_num
  have hser4 : Float.serialize (Float.int 4) = (4 : ℚ) := by
    show ((4 : ℤ) : ℚ) = (4 : ℚ)
    norm_num
  simp only [specSetUpdate, Finset.image_singleton, hnew72, hnew4, if_true,
    Finset.image_insert, hser4, hser3]
  exact Finset.pair_comm _ _

lemma specSetUpdate_int (s : Finset ℚ) (ep : ℤ) (w : Bool)
    (h : ∀ q ∈ s, q.den = 1) :
    specSetUpdate s ((ep : ℤ) : ℚ) w
      = (if w then insert ep (s.image Rat.num)
         else (s.image Rat.num).erase ep).image (fun n => ((n : ℤ) : ℚ)) := by
  have himg : s.image Float.new = (s.image Rat.num).image Float.int := by
    rw [Finset.image_image]
    apply Finset.image_congr
    intro q hq
    exact Float.new_of_den_one (h q (Finset.mem_coe.mp hq))
  simp only [specSetUpdate, himg, Float.new_intCast]
  cases w
  · simp only [Bool.false_eq_true, if_false]
    rw [← Finset.image_erase float_int_injective, Finset.image_image]
    apply Finset.image_congr
    intro n _
    rfl
  · simp only [if_true]
    rw [← Finset.image_insert, Finset.image_image]
    apply Finset.image_congr
    intro n _
    rfl

/-- C4 (amended): `update_episode_watched_state` never invokes the codec —
it deserializes the stored set as raw integers (and panics when a stored
value is not an integer) and inserts or removes the raw `i32` episode
number.  On states whose stored set holds only integer values, which is
every state this code can itself produce, this coincides with the claimed
canonicalize-insert-writeback behaviour, and the resulting stored set
satisfies Invariant I2: every stored value is the serialization of its own
canonical mark, and no two stored values are codec-equivalent. -/
theorem code_update_matches_spec_on_integer_sets (s : Finset ℚ) (ep : ℤ)
    (w : Bool) (h : ∀ q ∈ s, q.den = 1) :
    codeSetUpdate s ep w = some (specSetUpdate s ((ep : ℤ) : ℚ) w)
    ∧ (∀ q ∈ specSetUpdate s ((ep : ℤ) : ℚ) w,
        Float.serialize (Float.new q) = q)
    ∧ (∀ p ∈ specSetUpdate s ((ep : ℤ) : ℚ) w,
        ∀ q ∈ specSetUpdate s ((ep : ℤ) : ℚ) w,
        Float.new p = Float.new q → p = q) := by
  rw [specSetUpdate_int s ep w h]
  refine ⟨?_, ?_, ?_⟩
  · simp only [codeSetUpdate]
    rw [if_pos h]
  · intro q hq
    rcases Finset.mem_image.mp hq with ⟨n, _, rfl⟩
    rw [Float.new_intCast]
    rfl
  · intro p hp q hq hpq
    rcases Finset.mem_image.mp hp with ⟨np, _, rfl⟩
    rcases Finset.mem_image.mp hq with ⟨nq, _, rfl⟩
    rw [Float.new_intCast, Float.new_intCast] at hpq
    exact congrArg _ (float_int_injective hpq)

/-- C4 witness: the amended statement applied to the integer-only stored
set `{3}` with episode 4 marked watched. -/
theorem code_update_matches_spec_witness :
    (∀ q ∈ ({(3 : ℚ)} : Finset ℚ), q.den = 1)
    ∧ codeSetUpdate {(3 : ℚ)} 4 true
        = some (specSetUpdate {(3 : ℚ)} ((4 : ℤ) : ℚ) true) :=
  ⟨by decide,
   (code_update_matches_spec_on_integer_sets {(3 : ℚ)} 4 true (by decide)).1⟩

end KServer
